import Mathlib

/-!
# File Processor Service — verification of the Dynamic Document Rendering Engine spec

Shallow embedding of the engine described by `spec.md` and
`src/Manual-File-Processor-Service.md`, together with the web UI logic of
`src/unnamed/part_000` and `src/static/script.js`.

The repository ships only the manual, the README and the web-UI JavaScript;
the Python backend (`app/main.py`) is not present.  Backend definitions are
therefore modelled from the spec and the manual, as marked in their doc
comments.  UI definitions are translated from the JavaScript source.
-/

namespace FileProcessor

/-- Modelled from the spec: the classified error taxonomy of section 7 of the
spec (the backend source that raises these errors is not in the repository). -/
inductive RenderError where
  | SchemaInvalid
  | InvalidEncoding
  | NotAnImage
  | RemoteFetchFailed (status : Nat)
  | RemoteFetchTimeout
  | HostDisallowed
  | PathNotAllowed
  | PayloadTooLarge
  | Internal
deriving DecidableEq, Repr

/-! ## C1 — SSRF guard on remote image fetch -/

/-- Modelled from the spec: the SSRF denylist, manual line 66:
`DISALLOWED_HOSTS = {"localhost","127.0.0.1","0.0.0.0"}`. -/
def DISALLOWED_HOSTS : List String := ["localhost", "127.0.0.1", "0.0.0.0"]

/-- Modelled from the spec: the denylist membership check applied to the URL
host before fetching a remote image. -/
def hostDisallowed (host : String) : Bool := DISALLOWED_HOSTS.contains host

/-- Modelled from the spec: the remote path of the Image Ingestion Pipeline.
The network is abstracted as an oracle `net`; the guard runs before `net` is
consulted, so a disallowed host yields `HostDisallowed` with no network I/O. -/
def fetchRemoteImage (net : String → Except RenderError (List Nat))
    (host : String) : Except RenderError (List Nat) :=
  if hostDisallowed host then .error .HostDisallowed else net host

/-- Split a character list on a separator character. -/
def splitOnChar (sep : Char) : List Char → List (List Char)
  | [] => [[]]
  | c :: cs =>
      if c = sep then [] :: splitOnChar sep cs
      else
        match splitOnChar sep cs with
        | [] => [[c]]
        | g :: gs => (c :: g) :: gs

/-- Parse a non-empty all-digit character list as a decimal natural. -/
def parseDecNat (cs : List Char) : Option Nat :=
  if !cs.isEmpty && cs.all Char.isDigit then
    some (cs.foldl (fun n c => n * 10 + (c.toNat - 48)) 0)
  else none

/-- Follows the claim's words (for comparison with the code's denylist):
a dotted-quad host lying in an RFC1918 private range, in the loopback range
127.0.0.0/8, or in 0.0.0.0/8. -/
def isPrivateOrLoopbackIPv4 (host : String) : Bool :=
  match (splitOnChar '.' host.toList).map parseDecNat with
  | [some a, some b, some _, some _] =>
      a == 10 || (a == 172 && decide (16 ≤ b) && decide (b ≤ 31)) ||
      (a == 192 && b == 168) || a == 127 || a == 0
  | _ => false

/-! ## C2 — widget diagnostics triple -/

/-- Modelled from the spec: the closed set of widget variants the engine
supports (data model section 3: text, checkbox, radio, signature). -/
def WIDGET_TYPES : List String := ["text", "checkbox", "radio", "signature"]

/-- Modelled from the spec: one logical form-field descriptor; only the
fields the injection pass consults for placement are carried. -/
structure Widget where
  type : String
  name : String
  page : Nat
deriving DecidableEq, Repr

/-- The diagnostics triple surfaced as X-Widgets-Supported / Injected /
Skipped response headers (read by src/unnamed/part_000 lines 153-160). -/
structure WidgetDiag where
  supported : Nat
  injected : Nat
  skipped : Nat
deriving DecidableEq, Repr

/-- Modelled from the spec: the Widget Injection Pass (spec section 4.4).  It
runs after layout has fixed `totalPages`; a widget whose `page` exceeds the
page count is skipped, every other widget is placed and counted as injected;
`supported` is the engine's fixed widget-type capability count. -/
def injectWidgets (ws : List Widget) (totalPages : Nat) : WidgetDiag :=
  { supported := WIDGET_TYPES.length
    injected := ws.countP (fun w => decide (w.page ≤ totalPages))
    skipped := ws.countP (fun w => decide (totalPages < w.page)) }

/-! ## C4 — ImageSpec source mutual exclusivity -/

/-- Modelled from the spec: the `ImageContent` schema (manual lines 121-131). -/
structure ImageContent where
  src : Option String := none
  base64_data : Option String := none
  width : Option Nat := none
  height : Option Nat := none
  align : String := "C"
deriving DecidableEq, Repr

/-- A field counts as supplied when it is present and non-empty. -/
def presentStr : Option String → Bool
  | some s => !(s == "")
  | none => false

/-- Modelled from the spec: the mutual-exclusivity validation of the image
source (manual line 131: provide `src` or `base64_data`; spec section 3:
mutually exclusive and jointly required, violation is `SchemaInvalid`). -/
def validateImageContent (ic : ImageContent) : Except RenderError Unit :=
  if presentStr ic.src = presentStr ic.base64_data then .error .SchemaInvalid
  else .ok ()

/-! ## C6 — bullet list hanging indent -/

/-- Modelled from the spec: the hanging indent applied to wrapped bullet
continuation lines (manual line 28: bullets with 4 mm indent). -/
def BULLET_HANG_INDENT_MM : Nat := 4

/-- One physical line emitted while drawing a bullet item: its left indent in
mm relative to the bullet column, whether the bullet glyph is drawn on it,
and the text run. -/
structure BulletLine where
  indentMm : Nat
  hasGlyph : Bool
  text : String
deriving DecidableEq, Repr

/-- Modelled from the spec: drawing of one bullet item (spec section 4.3).
`wrap` is the font-measured line wrapper; the first wrapped line carries the
glyph, every continuation line is indented by the hanging indent and carries
no glyph. -/
def renderBulletItem (wrap : String → List String) (item : String) :
    List BulletLine :=
  match wrap item with
  | [] => []
  | first :: rest =>
      ⟨0, true, first⟩ ::
        rest.map (fun t => ⟨BULLET_HANG_INDENT_MM, false, t⟩)

/-! ## C5 — tolerant Base64 decoding

Modelled from the spec (manual line 32, spec section 4.1): the Base64 path
accepts a raw encoded string or a data-URL, strips whitespace, tolerates
the URL-safe alphabet, corrects missing padding, and fails with
`InvalidEncoding` when the result is not decodable.  Bytes are naturals
below 256. -/

/-- The standard Base64 alphabet in sextet order. -/
def b64Chars : List Char :=
  "ABCDEFGHIJKLMNOPQRSTUVWXYZabcdefghijklmnopqrstuvwxyz0123456789+/".toList

/-- The alphabet character of a sextet value. -/
def sextetChar (n : Nat) : Char := b64Chars.getD n 'A'

/-- Standard Base64 encoding of a byte sequence (the client-side encoding
the round-trip property quantifies over), with `=` padding. -/
def encodeB64 : List Nat → List Char
  | [] => []
  | [b0] => [sextetChar (b0 / 4), sextetChar (b0 % 4 * 16), '=', '=']
  | [b0, b1] =>
      [sextetChar (b0 / 4), sextetChar (b0 % 4 * 16 + b1 / 16),
        sextetChar (b1 % 16 * 4), '=']
  | b0 :: b1 :: b2 :: rest =>
      sextetChar (b0 / 4) :: sextetChar (b0 % 4 * 16 + b1 / 16) ::
        sextetChar (b1 % 16 * 4 + b2 / 64) :: sextetChar (b2 % 64) ::
        encodeB64 rest

/-- The whitespace the tolerant decoder strips. -/
def isB64Ws (c : Char) : Bool := c == ' ' || c == '\n' || c == '\r' || c == '\t'

/-- Drop everything up to and including the first comma (the payload part of
a data-URL). -/
def dropThroughComma : List Char → List Char
  | [] => []
  | c :: cs => if c = ',' then cs else dropThroughComma cs

/-- Modelled from the spec: a string starting with a data-URL scheme keeps
only what follows the first comma. -/
def stripDataUrl (cs : List Char) : List Char :=
  if cs.take 5 = ("data:").toList then dropThroughComma cs else cs

/-- Modelled from the spec: the URL-safe alphabet is folded back onto the
standard one. -/
def mapUrlSafe (c : Char) : Char :=
  if c = '-' then '+' else if c = '_' then '/' else c

/-- Modelled from the spec: missing padding is corrected by padding with `=`
to the nearest multiple of four. -/
def padB64 (cs : List Char) : List Char :=
  cs ++ List.replicate ((4 - cs.length % 4) % 4) '='

/-- Linear scan of the alphabet giving a character's sextet value. -/
def decodeSextetAux : List Char → Nat → Char → Option Nat
  | [], _, _ => none
  | a :: as, i, c => if c = a then some i else decodeSextetAux as (i + 1) c

/-- The sextet value of an alphabet character, `none` off the alphabet. -/
def decodeSextet (c : Char) : Option Nat := decodeSextetAux b64Chars 0 c

/-- Chunkwise Base64 decoding of a normalized, padded character sequence:
every chunk holds four characters; a chunk ending in `=` must be final. -/
def decodeChunks : List Char → Option (List Nat)
  | [] => some []
  | c0 :: c1 :: c2 :: c3 :: rest =>
      match decodeSextet c0, decodeSextet c1 with
      | some s0, some s1 =>
          if c2 = '=' then
            if c3 = '=' ∧ rest = [] then some [s0 * 4 + s1 / 16] else none
          else
            match decodeSextet c2 with
            | some s2 =>
                if c3 = '=' then
                  if rest = [] then
                    some [s0 * 4 + s1 / 16, s1 % 16 * 16 + s2 / 4]
                  else none
                else
                  match decodeSextet c3, decodeChunks rest with
                  | some s3, some tl =>
                      some ((s0 * 4 + s1 / 16) :: (s1 % 16 * 16 + s2 / 4) ::
                        (s2 % 4 * 64 + s3) :: tl)
                  | _, _ => none
            | none => none
      | _, _ => none
  | _ => none

/-- Modelled from the spec: the whole tolerant Base64 path — strip a
data-URL wrapper, strip whitespace, fold the URL-safe alphabet, correct the
padding, then decode; any failure is `InvalidEncoding`. -/
def decodeB64 (s : List Char) : Except RenderError (List Nat) :=
  let t :=
    padB64 (((stripDataUrl s).filter (fun c => !isB64Ws c)).map mapUrlSafe)
  match decodeChunks t with
  | some bs => .ok bs
  | none => .error .InvalidEncoding

/-- The URL-safe re-encoding of a standard Base64 text (used to state the
tolerance clause of the round-trip claim). -/
def toUrlSafe (c : Char) : Char :=
  if c = '+' then '-' else if c = '/' then '_' else c

/-- Removal of the trailing `=` padding (used to state the missing-padding
clause of the round-trip claim). -/
def dropEq (cs : List Char) : List Char :=
  ((cs.reverse.dropWhile (fun c => c == '=')).reverse)

/-! ## C3 — Block Layout Engine pagination -/

/-- The layout cursor: the 1-based number of the page being filled and the
vertical space already consumed on it (mm below the top margin). -/
structure LayoutState where
  pages : Nat
  used : ℚ
deriving DecidableEq, Repr

/-- Modelled from the spec: the page-break primitive of spec section 4.3 —
if the remaining vertical room on the current page is less than `required`,
finalize the page and start a new one at the top margin, before drawing. -/
def ensure_space (printable : ℚ) (st : LayoutState) (required : ℚ) :
    LayoutState :=
  if printable - st.used < required then { pages := st.pages + 1, used := 0 }
  else st

/-- Modelled from the spec: laying out one block — each block computes its
required height, calls `ensure_space`, then draws, consuming that height. -/
def placeBlock (printable : ℚ) (st : LayoutState) (h : ℚ) : LayoutState :=
  let st2 := ensure_space printable st h
  { st2 with used := st2.used + h }

/-- Modelled from the spec: the Block Layout Engine walking the ordered block
heights, starting on page 1 with an empty page. -/
def layoutFinal (printable : ℚ) (hs : List ℚ) : LayoutState :=
  hs.foldl (placeBlock printable) ⟨1, 0⟩

/-- The number of pages the engine produces for the given block heights. -/
def layoutPages (printable : ℚ) (hs : List ℚ) : Nat :=
  (layoutFinal printable hs).pages

/-! ## C7 — atomic error propagation -/

/-- Modelled from the spec: block processing aborts at the first classified
error; a fully successful walk yields every block's required height. -/
def seqBlocks : List (Except RenderError ℚ) → Except RenderError (List ℚ)
  | [] => .ok []
  | .error e :: _ => .error e
  | .ok h :: rest =>
      match seqBlocks rest with
      | .error e => .error e
      | .ok t => .ok (h :: t)

/-- The successful render outcome: the produced document (abstracted by its
page count) together with the widget diagnostics triple. -/
structure RenderResult where
  pages : Nat
  diag : WidgetDiag
deriving DecidableEq, Repr

/-- Modelled from the spec: one whole render request — lay out the blocks
(any classified block error aborts with no output), then, with the page count
fixed, run the widget injection pass, which never fails. -/
def renderDocument (printable : ℚ) (blocks : List (Except RenderError ℚ))
    (ws : List Widget) : Except RenderError RenderResult :=
  match seqBlocks blocks with
  | .error e => .error e
  | .ok hs =>
      let n := layoutPages printable hs
      .ok ⟨n, injectWidgets ws n⟩

/-! ## JSON values for the web UI (C8, C9, C10) -/

/-- A parsed JSON value, the result of JSON.parse in the browser. -/
inductive Json where
  | null
  | bool (b : Bool)
  | num (n : ℚ)
  | str (s : String)
  | arr (elems : List Json)
  | obj (fields : List (String × Json))

/-- Lookup of an object property, first binding wins. -/
def lookupKey : List (String × Json) → String → Option Json
  | [], _ => none
  | (k, v) :: rest, key => if k = key then some v else lookupKey rest key

/-- JavaScript property assignment on an object: an existing key is updated
in place, a fresh key is appended after the existing ones. -/
def setKey : List (String × Json) → String → Json → List (String × Json)
  | [], key, v => [(key, v)]
  | (k, w) :: rest, key, v =>
      if k = key then (key, v) :: rest else (k, w) :: setKey rest key v

/-- Property read `j.k` in JavaScript: only objects carry named properties
(for every other JSON value the read yields undefined). -/
def jsProp (j : Json) (k : String) : Option Json :=
  match j with
  | .obj fields => lookupKey fields k
  | _ => none

/-- JavaScript falsiness of a JSON value. -/
def jsFalsy : Json → Bool
  | .null => true
  | .bool b => !b
  | .num n => n == 0
  | .str s => s == ""
  | _ => false

/-! ## C8 — createPdf download file name

From src/unnamed/part_000 line 163 (same logic in src/static/script.js line
106): the downloaded or previewed blob is named
`(data.filename || 'documento') + '.pdf'`. -/

/-- The JavaScript string coercion applied to the filename; the schema makes
`filename` a string, the only case this model is used at. -/
def jsStr : Json → String
  | .str s => s
  | _ => ""

/-- The file name chosen by the UI createPdf flow for the rendered blob. -/
def createPdfFilename (data : Json) : String :=
  match jsProp data "filename" with
  | some v => (if jsFalsy v then "documento" else jsStr v) ++ ".pdf"
  | none => "documento" ++ ".pdf"

/-! ## C9 — extractText download flag

From src/unnamed/part_000 lines 191-192 (same in src/static/script.js lines
131-132): `const download = returnAs === 'txt';` and the query string built
from it; lines 196-205 display the JSON result or download the blob. -/

/-- The value of the `download` query parameter the UI sends. -/
def extractDownload (returnAs : String) : Bool := returnAs == "txt"

/-- The request URL built by the extractText flow. -/
def processFileUrl (returnAs : String) : String :=
  "/api/process-file?return_as=" ++ returnAs ++ "&download=" ++
    (if extractDownload returnAs then "true" else "false")

/-- What the UI does with a successful extraction response. -/
inductive UiOutcome where
  | display (text : String)
  | downloadFile (name : String)
deriving DecidableEq, Repr

/-- The regular expression replace of part_000 line 202,
`file.name.replace(/\.[^/.]+$/, '')`: drop a final dot-extension whose
characters are neither dots nor slashes; keep the name when no such suffix
exists. -/
def dropLastExt (name : String) : String :=
  let rev := name.toList.reverse
  let ext := rev.takeWhile (fun c => !(c == '.') && !(c == '/'))
  if ext.length < rev.length && rev.getD ext.length ' ' == '.' &&
      !ext.isEmpty then
    ((rev.drop (ext.length + 1)).reverse).asString
  else name

/-- The .txt file name used for a txt extraction,
`(file.name.replace(/\.[^/.]+$/, '') || 'texto') + '.txt'`. -/
def txtDownloadName (fileName : String) : String :=
  (if dropLastExt fileName == "" then "texto" else dropLastExt fileName) ++
    ".txt"

/-- The extractText flow's handling of a 200 response: a json extraction is
displayed, a txt extraction is downloaded under the derived name. -/
def extractOutcome (returnAs : String) (fileName body : String) : UiOutcome :=
  if returnAs == "json" then .display body
  else .downloadFile (txtDownloadName fileName)

/-! ## C10 — snippet button click handler

From src/unnamed/part_000 lines 106-125: parse the editor, default a missing
or non-array `content_blocks` to `[]`, push a deep copy of the snippet
template, reserialize; a parse failure (or the runtime TypeError raised when
the parsed value cannot carry the property) is caught and reported with an
error toast, leaving the editor untouched. -/

/-- The editor content as the handler sees it: `none` when
`JSON.parse(payloadEl.value || '{}')` throws, otherwise the parsed value. -/
def SnippetResult := Option Json × Bool

/-- The existing `content_blocks` array of an object payload; a missing or
non-array value is replaced by the empty array (part_000 line 117). -/
def currentBlocks (fields : List (String × Json)) : List Json :=
  match lookupKey fields "content_blocks" with
  | some (.arr l) => l
  | _ => []

/-- One snippet-button click: the new editor value and whether the error
toast is shown.  An object payload gets the snippet appended; an array
payload accepts the property assignment but drops it at serialization; any
other payload raises a TypeError at the push, caught by the handler. -/
def snippetClick (st : Option Json) (snippet : Json) : Option Json × Bool :=
  match st with
  | none => (none, true)
  | some (.obj fields) =>
      (some (.obj (setKey fields "content_blocks"
        (.arr (currentBlocks fields ++ [snippet])))), false)
  | some (.arr l) => (some (.arr l), false)
  | some j => (some j, true)

/-- The heading snippet template of part_000 line 94. -/
def snippetHeading : Json :=
  .obj [("type", .str "heading"), ("content", .str "Título da Seção"),
    ("style", .obj [("background_color", .arr [.num 224, .num 238, .num 255])]),
    ("line_height", .num 9)]

/-! # Theorems -/

/-! ## C1 — SSRF guard -/

/-- C1 (corrected, spec-modelled): the claim extends the guard to every
private/loopback-range address, but the denylist check is exact membership in
the three-element `DISALLOWED_HOSTS`; a private-range host such as 10.0.0.1
is not rejected and the network oracle is consulted. -/
theorem ssrf_private_range_not_blocked :
    isPrivateOrLoopbackIPv4 "10.0.0.1" = true ∧
    hostDisallowed "10.0.0.1" = false ∧
    fetchRemoteImage (fun _ => .ok [7]) "10.0.0.1" = .ok [7] := by
  refine ⟨by decide, by decide, ?_⟩
  simp [fetchRemoteImage, hostDisallowed, DISALLOWED_HOSTS]

/-- C1 (amended): a remote src whose host is on the denylist
(`localhost`, `127.0.0.1`, `0.0.0.0`) is always rejected with
`HostDisallowed` before any network I/O: the result is the error and is
independent of the network oracle. -/
theorem ssrf_guard_denylisted (host : String) (hmem : host ∈ DISALLOWED_HOSTS)
    (net net2 : String → Except RenderError (List Nat)) :
    fetchRemoteImage net host = .error .HostDisallowed ∧
    fetchRemoteImage net host = fetchRemoteImage net2 host := by
  have hd : hostDisallowed host = true := by
    simp only [DISALLOWED_HOSTS, List.mem_cons, List.not_mem_nil,
      or_false] at hmem
    rcases hmem with rfl | rfl | rfl <;> decide
  constructor <;> simp [fetchRemoteImage, hd]

/-- Witness for `ssrf_guard_denylisted` at `127.0.0.1`. -/
theorem ssrf_guard_denylisted_witness :
    fetchRemoteImage (fun _ => .ok [7]) "127.0.0.1" =
      .error .HostDisallowed :=
  (ssrf_guard_denylisted "127.0.0.1" (by simp [DISALLOWED_HOSTS])
    (fun _ => .ok [7]) (fun _ => .ok [])).1

/-! ## C2 — widget diagnostics -/

/-- C2 (corrected, spec-modelled): with zero widgets the injected and
skipped counts are zero, but `supported` is still the engine's fixed
widget-type capability count 4, not zero. -/
theorem widget_diag_zero_counterexample :
    injectWidgets [] 1 = ⟨4, 0, 0⟩ ∧ (injectWidgets [] 1).supported ≠ 0 := by
  constructor <;> decide

/-- C2 (amended): the diagnostics triple always reports
`supported = WIDGET_TYPES.length` (4, independent of how many widgets were
submitted, including zero); every widget is counted exactly once as injected
or skipped; for 5 widgets of which exactly one references a page beyond the
produced page count, injected = 4 and skipped = 1; with zero widgets the
injected and skipped counts are reported as zero. -/
theorem widget_diag_counts (ws : List Widget) (n : Nat)
    (h5 : ws.length = 5)
    (hbad : ws.countP (fun w => decide (n < w.page)) = 1) :
    (injectWidgets ws n).supported = WIDGET_TYPES.length ∧
    (injectWidgets ws n).injected = 4 ∧
    (injectWidgets ws n).skipped = 1 ∧
    (∀ ws2 m, (injectWidgets ws2 m).supported = WIDGET_TYPES.length ∧
      (injectWidgets ws2 m).injected + (injectWidgets ws2 m).skipped =
        ws2.length) ∧
    (injectWidgets [] n).injected = 0 ∧ (injectWidgets [] n).skipped = 0 := by
  have key : ∀ (ws2 : List Widget) (m : Nat),
      ws2.countP (fun w => decide (w.page ≤ m)) +
        ws2.countP (fun w => decide (m < w.page)) = ws2.length := by
    intro ws2 m
    have hc : ws2.countP (fun w => decide (w.page ≤ m)) =
        ws2.countP (fun w => ¬(decide (m < w.page))) :=
      List.countP_congr (by
        intro w _
        by_cases h : w.page ≤ m <;>
          simp [h, Nat.lt_iff_add_one_le, Nat.not_le.mpr, Nat.not_le,
            Nat.not_lt])
    rw [hc, Nat.add_comm, ← List.length_eq_countP_add_countP]
  refine ⟨rfl, ?_, hbad, fun ws2 m => ⟨rfl, key ws2 m⟩, rfl, rfl⟩
  have := key ws n
  simp only [injectWidgets]
  omega

/-- Witness for `widget_diag_counts`: five page-1 text widgets, one of them
referencing page 2 of a one-page document. -/
theorem widget_diag_counts_witness :
    (injectWidgets [⟨"text", "a", 1⟩, ⟨"text", "b", 1⟩, ⟨"text", "c", 1⟩,
      ⟨"text", "d", 1⟩, ⟨"text", "e", 2⟩] 1).injected = 4 ∧
    (injectWidgets [⟨"text", "a", 1⟩, ⟨"text", "b", 1⟩, ⟨"text", "c", 1⟩,
      ⟨"text", "d", 1⟩, ⟨"text", "e", 2⟩] 1).skipped = 1 :=
  ⟨(widget_diag_counts _ 1 (by decide) (by decide)).2.1,
   (widget_diag_counts _ 1 (by decide) (by decide)).2.2.1⟩

/-! ## C4 — image source mutual exclusivity -/

/-- C4 (confirmed, spec-modelled): validation of an ImageSpec succeeds
exactly when one of `src` and `base64_data` is present and non-empty; both
empty or both populated is rejected as `SchemaInvalid`, and `SchemaInvalid`
is the only error this validation produces. -/
theorem image_source_exclusivity (ic : ImageContent) :
    (validateImageContent ic = .ok () ↔
      presentStr ic.src ≠ presentStr ic.base64_data) ∧
    (presentStr ic.src = false → presentStr ic.base64_data = false →
      validateImageContent ic = .error .SchemaInvalid) ∧
    (presentStr ic.src = true → presentStr ic.base64_data = true →
      validateImageContent ic = .error .SchemaInvalid) ∧
    (∀ e, validateImageContent ic = .error e → e = .SchemaInvalid) := by
  unfold validateImageContent
  cases hs : presentStr ic.src <;> cases hb : presentStr ic.base64_data <;>
    simp [hs, hb]

/-- Witness for `image_source_exclusivity`: both sources populated is
rejected as `SchemaInvalid`. -/
theorem image_source_exclusivity_witness :
    validateImageContent { src := some "https://x/img.png", base64_data := some "aGk=" } = .error .SchemaInvalid :=
  (image_source_exclusivity _).2.2.1 (by decide) (by decide)

/-! ## C6 — bullet hanging indent -/

/-- C6 (confirmed, spec-modelled): a bullet item wrapping to one or more
lines renders its first line with the glyph at the bullet column and every
continuation line indented by exactly 4 mm with no glyph; the glyph appears
exactly once. -/
theorem bullet_hanging_indent (wrap : String → List String) (item : String)
    (first : String) (rest : List String) (hw : wrap item = first :: rest) :
    renderBulletItem wrap item =
      ⟨0, true, first⟩ ::
        rest.map (fun t => ⟨BULLET_HANG_INDENT_MM, false, t⟩) ∧
    (∀ bl ∈ (renderBulletItem wrap item).tail,
      bl.indentMm = 4 ∧ bl.hasGlyph = false) ∧
    (renderBulletItem wrap item).countP (fun bl => bl.hasGlyph) = 1 := by
  refine ⟨by simp [renderBulletItem, hw], ?_, ?_⟩
  · intro bl hbl
    simp only [renderBulletItem, hw, List.tail_cons, List.mem_map] at hbl
    obtain ⟨t, -, rfl⟩ := hbl
    exact ⟨rfl, rfl⟩
  · simp only [renderBulletItem, hw, List.countP_cons, List.countP_map]
    have : (fun t => (BulletLine.mk BULLET_HANG_INDENT_MM false t).hasGlyph)
        = fun _ => false := rfl
    simp [Function.comp_def, List.countP_eq_zero]

/-- Witness for `bullet_hanging_indent`: an item wrapped to three lines. -/
theorem bullet_hanging_indent_witness :
    renderBulletItem (fun _ => ["um", "dois", "tres"]) "um dois tres" =
      [⟨0, true, "um"⟩, ⟨4, false, "dois"⟩, ⟨4, false, "tres"⟩] :=
  (bullet_hanging_indent (fun _ => ["um", "dois", "tres"]) "um dois tres"
    "um" ["dois", "tres"] rfl).1

/-! ## C8 — createPdf download file name -/

/-- C8 (confirmed): the downloaded or previewed blob is named from the
payload's `filename` with `.pdf` appended; an absent or falsy `filename`
defaults to `documento.pdf`. -/
theorem createpdf_filename (data : Json) :
    (∀ s, jsProp data "filename" = some (.str s) → s ≠ "" →
      createPdfFilename data = s ++ ".pdf") ∧
    (jsProp data "filename" = none →
      createPdfFilename data = "documento.pdf") ∧
    (∀ v, jsProp data "filename" = some v → jsFalsy v = true →
      createPdfFilename data = "documento.pdf") := by
  refine ⟨?_, ?_, ?_⟩
  · intro s hs hne
    simp [createPdfFilename, hs, jsFalsy, hne, jsStr]
  · intro hn
    simp [createPdfFilename, hn]
  · intro v hv hf
    simp [createPdfFilename, hv, hf]

/-- Witness for `createpdf_filename` on a concrete payload. -/
theorem createpdf_filename_witness :
    createPdfFilename (.obj [("filename", .str "relatorio_agosto")]) =
      "relatorio_agosto.pdf" ∧
    createPdfFilename (.obj [("title", .str "t")]) = "documento.pdf" ∧
    createPdfFilename (.obj [("filename", .str "")]) = "documento.pdf" :=
  ⟨(createpdf_filename (.obj [("filename", .str "relatorio_agosto")])).1
      "relatorio_agosto" rfl (by decide),
   (createpdf_filename (.obj [("title", .str "t")])).2.1 rfl,
   (createpdf_filename (.obj [("filename", .str "")])).2.2
      (.str "") rfl rfl⟩

/-! ## C9 — extractText download flag -/

/-- C9 (confirmed): the `download` query parameter is true exactly when
`return_as` is txt; a json extraction request carries download=false and its
result is displayed, a txt extraction carries download=true and is
downloaded as a file. -/
theorem extract_download_iff (r : String) (f b : String) :
    (extractDownload r = true ↔ r = "txt") ∧
    processFileUrl "json" = "/api/process-file?return_as=json&download=false" ∧
    processFileUrl "txt" = "/api/process-file?return_as=txt&download=true" ∧
    extractOutcome "json" f b = .display b ∧
    extractOutcome "txt" f b = .downloadFile (txtDownloadName f) := by
  refine ⟨?_, rfl, rfl, rfl, rfl⟩
  simp [extractDownload]

/-! ## C10 — snippet button click handler -/

/-- Reading back the written key returns the written value. -/
theorem lookupKey_setKey_self (fields : List (String × Json)) (key : String)
    (v : Json) : lookupKey (setKey fields key v) key = some v := by
  induction fields with
  | nil => simp [setKey, lookupKey]
  | cons kv rest ih =>
      obtain ⟨k, w⟩ := kv
      by_cases h : k = key <;> simp [setKey, lookupKey, h, ih]

/-- Writing one key leaves every other key's binding unchanged. -/
theorem lookupKey_setKey_other (fields : List (String × Json)) (key k : String)
    (v : Json) (hk : k ≠ key) :
    lookupKey (setKey fields key v) k = lookupKey fields k := by
  have hk2 : ¬(key = k) := fun h => hk h.symm
  induction fields with
  | nil =>
      show (if key = k then some v else none) = none
      exact if_neg hk2
  | cons kv rest ih =>
      obtain ⟨k2, w⟩ := kv
      simp only [setKey]
      by_cases h : k2 = key
      · subst h
        simp only [if_pos rfl, lookupKey]
        rw [if_neg hk2, if_neg hk2]
      · simp only [if_neg h, lookupKey, ih]

/-- C10 (amended): when the editor parses to a JSON object, one copy of the
snippet template is appended to `content_blocks` (the array being created
when missing or not an array), previous blocks keep their order, every other
field is unchanged, and no error toast is shown; when the editor text is not
valid JSON the editor state is unchanged and only the error toast is shown
(a parsed non-object, non-array value also leaves the editor unchanged with
the toast, via the caught TypeError). -/
theorem snippet_click_append (fields : List (String × Json)) (sn : Json)
    (k : String) (hk : k ≠ "content_blocks") :
    (snippetClick (some (.obj fields)) sn).2 = false ∧
    (snippetClick (some (.obj fields)) sn).1 =
      some (.obj (setKey fields "content_blocks"
        (.arr (currentBlocks fields ++ [sn])))) ∧
    lookupKey (setKey fields "content_blocks"
      (.arr (currentBlocks fields ++ [sn]))) "content_blocks" =
      some (.arr (currentBlocks fields ++ [sn])) ∧
    lookupKey (setKey fields "content_blocks"
      (.arr (currentBlocks fields ++ [sn]))) k = lookupKey fields k ∧
    snippetClick none sn = (none, true) :=
  ⟨rfl, rfl, lookupKey_setKey_self fields "content_blocks" _,
    lookupKey_setKey_other fields "content_blocks" k _ hk, rfl⟩

/-- Witness for `snippet_click_append`: the heading snippet appended to a
payload that already has one block and a filename. -/
theorem snippet_click_append_witness :
    (snippetClick (some (.obj [("filename", .str "f"),
      ("content_blocks", .arr [.str "b0"])])) snippetHeading).1 =
      some (.obj [("filename", .str "f"),
        ("content_blocks", .arr [.str "b0", snippetHeading])]) ∧
    lookupKey (setKey [("filename", .str "f"),
        ("content_blocks", .arr [.str "b0"])] "content_blocks"
        (.arr (currentBlocks [("filename", .str "f"),
          ("content_blocks", .arr [.str "b0"])] ++ [snippetHeading])))
      "filename" =
      lookupKey [("filename", .str "f"),
        ("content_blocks", .arr [.str "b0"])] "filename" :=
  ⟨(snippet_click_append [("filename", .str "f"),
      ("content_blocks", .arr [.str "b0"])] snippetHeading "filename"
      (by decide)).2.1,
   (snippet_click_append [("filename", .str "f"),
      ("content_blocks", .arr [.str "b0"])] snippetHeading "filename"
      (by decide)).2.2.2.1⟩

/-- C10 (corrected): the editor text `5` is valid JSON, yet the handler
leaves the editor unchanged and shows the error toast (the push onto the
missing `content_blocks` raises a caught TypeError), instead of creating the
array and appending the snippet as the claim states. -/
theorem snippet_click_counterexample :
    (snippetClick (some (.num 5)) snippetHeading).2 = true ∧
    (snippetClick (some (.num 5)) snippetHeading).1 = some (.num 5) :=
  ⟨rfl, rfl⟩

/-! ## C3 — layout pagination -/

/-- One layout step keeps the cursor inside the printable band, never
decreases the page number, and grows the occupied-space measure
`(pages - 1) * printable + used` by at least the block height. -/
theorem placeBlock_bounds (P : ℚ) (st : LayoutState) (x : ℚ)
    (hx0 : 0 ≤ x) (hxP : x ≤ P) (hu0 : 0 ≤ st.used) (huP : st.used ≤ P) :
    0 ≤ (placeBlock P st x).used ∧ (placeBlock P st x).used ≤ P ∧
    st.pages ≤ (placeBlock P st x).pages ∧
    ((st.pages : ℚ) - 1) * P + st.used + x ≤
      (((placeBlock P st x).pages : ℚ) - 1) * P + (placeBlock P st x).used := by
  by_cases hbr : P - st.used < x
  · simp only [placeBlock, ensure_space, if_pos hbr]
    refine ⟨by linarith, by linarith, Nat.le_succ _, ?_⟩
    push_cast
    ring_nf
    linarith
  · simp only [placeBlock, ensure_space, if_neg hbr]
    push_neg at hbr
    exact ⟨by linarith, by linarith, le_refl _, by linarith⟩

/-- Folding the layout over well-formed block heights preserves the cursor
bounds and accounts for the total height in at most
`pages * printable` of produced space. -/
theorem layout_foldl_inv (P : ℚ) :
    ∀ (hs : List ℚ) (st : LayoutState),
      (∀ x ∈ hs, 0 ≤ x ∧ x ≤ P) → 0 ≤ st.used → st.used ≤ P →
      0 ≤ (hs.foldl (placeBlock P) st).used ∧
      (hs.foldl (placeBlock P) st).used ≤ P ∧
      st.pages ≤ (hs.foldl (placeBlock P) st).pages ∧
      ((st.pages : ℚ) - 1) * P + st.used + hs.sum ≤
        (((hs.foldl (placeBlock P) st).pages : ℚ) - 1) * P +
          (hs.foldl (placeBlock P) st).used := by
  intro hs
  induction hs with
  | nil =>
      intro st hall hu0 huP
      exact ⟨hu0, huP, le_refl _, by simp⟩
  | cons x t ih =>
      intro st hall hu0 huP
      obtain ⟨hx0, hxP⟩ := hall x (List.mem_cons_self x t)
      obtain ⟨s0, sP, spg, smeas⟩ := placeBlock_bounds P st x hx0 hxP hu0 huP
      obtain ⟨r0, rP, rpg, rmeas⟩ := ih (placeBlock P st x)
        (fun y hy => hall y (List.mem_cons_of_mem x hy)) s0 sP
      refine ⟨r0, rP, le_trans spg rpg, ?_⟩
      simp only [List.foldl_cons] at rmeas ⊢
      simp only [List.sum_cons]
      linarith

/-- The page number never decreases while blocks are laid out. -/
theorem layout_pages_le_foldl (P : ℚ) :
    ∀ (hs : List ℚ) (st : LayoutState),
      st.pages ≤ (hs.foldl (placeBlock P) st).pages := by
  intro hs
  induction hs with
  | nil => intro st; exact le_refl _
  | cons x t ih =>
      intro st
      refine le_trans ?_ (ih (placeBlock P st x))
      by_cases hbr : P - st.used < x
      · simp [placeBlock, ensure_space, hbr, Nat.le_succ]
      · simp [placeBlock, ensure_space, hbr]

/-- C3 (corrected, spec-modelled): three blocks of height 6 on a printable
height of 10 require ⌈18/10⌉ = 2 pages by the claim, but the greedy
`ensure_space` walk produces 3 pages. -/
theorem layout_page_count_counterexample :
    layoutPages 10 [6, 6, 6] = 3 ∧
    ⌈(([6, 6, 6] : List ℚ).sum) / (10 : ℚ)⌉ = 2 ∧
    (3 : ℕ) ≠ 2 := by
  refine ⟨by norm_num [layoutPages, layoutFinal, placeBlock, ensure_space],
    ?_, by decide⟩
  rw [show (([6, 6, 6] : List ℚ).sum) = 18 by norm_num]
  rw [Int.ceil_eq_iff]
  norm_num

/-- C3 (amended): for block heights that each fit one page, the engine
produces at least ⌈total height / printable height⌉ pages (the exact count
is the greedy first-fit page count, which can exceed the ceiling when page
remainders are wasted), and appending further content never decreases the
page count. -/
theorem layout_page_count (P : ℚ) (hP : 0 < P) (hs more : List ℚ)
    (hall : ∀ x ∈ hs, 0 ≤ x ∧ x ≤ P) :
    ⌈hs.sum / P⌉ ≤ (layoutPages P hs : ℤ) ∧
    layoutPages P hs ≤ layoutPages P (hs ++ more) := by
  constructor
  · obtain ⟨r0, rP, -, rmeas⟩ :=
      layout_foldl_inv P hs ⟨1, 0⟩ hall (le_refl 0) (le_of_lt hP)
    rw [Int.ceil_le, div_le_iff₀ hP]
    unfold layoutPages layoutFinal
    push_cast
    push_cast at rmeas
    nlinarith [rmeas, rP]
  · unfold layoutPages layoutFinal
    rw [List.foldl_append]
    exact layout_pages_le_foldl P more _

/-- Witness for `layout_page_count`: two 6 mm blocks on a 10 mm page, then a
third appended. -/
theorem layout_page_count_witness :
    ⌈(([6, 6] : List ℚ).sum) / (10 : ℚ)⌉ ≤ (layoutPages 10 [6, 6] : ℤ) ∧
    layoutPages 10 [6, 6] ≤ layoutPages 10 ([6, 6] ++ [6]) :=
  layout_page_count 10 (by norm_num) [6, 6] [6] (by
    intro x hx
    simp only [List.mem_cons, List.not_mem_nil, or_false] at hx
    rcases hx with rfl | rfl <;> norm_num)

/-! ## C7 — atomic error propagation -/

/-- Block processing succeeds exactly when every block succeeds. -/
theorem seqBlocks_ok_iff (blocks : List (Except RenderError ℚ)) :
    (∃ hs, seqBlocks blocks = .ok hs) ↔ ∀ b ∈ blocks, ∃ h, b = .ok h := by
  induction blocks with
  | nil => simp [seqBlocks]
  | cons b t ih =>
      cases b with
      | error e =>
          simp only [seqBlocks]
          constructor
          · rintro ⟨hs, h2⟩; cases h2
          · intro hall
            obtain ⟨h, hh⟩ := hall (.error e) (List.mem_cons_self _ t)
            cases hh
      | ok h =>
          simp only [seqBlocks]
          cases ht : seqBlocks t with
          | error e =>
              constructor
              · rintro ⟨hs, h2⟩; cases h2
              · intro hall
                obtain ⟨hs, h2⟩ :=
                  ih.mpr (fun b hb => hall b (List.mem_cons_of_mem _ hb))
                rw [ht] at h2; cases h2
          | ok tl =>
              constructor
              · intro _ b hb
                rcases List.mem_cons.mp hb with rfl | hb
                · exact ⟨h, rfl⟩
                · exact ih.mp ⟨tl, ht⟩ b hb
              · intro _; exact ⟨h :: tl, rfl⟩

/-- C7 (confirmed, spec-modelled): a render produces output exactly when
every content block succeeds — any classified block error aborts the whole
request with that error and no output, independently of the widgets; widget
placement failures never fail the request, they surface only through the
skipped count of the diagnostics triple. -/
theorem render_error_policy (P : ℚ) (blocks : List (Except RenderError ℚ))
    (ws ws2 : List Widget) :
    ((∃ r, renderDocument P blocks ws = .ok r) ↔
      ∀ b ∈ blocks, ∃ h, b = .ok h) ∧
    (∀ e, renderDocument P blocks ws = .error e →
      renderDocument P blocks ws2 = .error e) ∧
    (∀ hs, seqBlocks blocks = .ok hs →
      renderDocument P blocks ws =
        .ok ⟨layoutPages P hs, injectWidgets ws (layoutPages P hs)⟩) ∧
    (∀ e, seqBlocks blocks = .error e →
      renderDocument P blocks ws = .error e) := by
  cases hsb : seqBlocks blocks with
  | error e =>
      refine ⟨?_, ?_, ?_, ?_⟩
      · rw [← seqBlocks_ok_iff]
        constructor
        · rintro ⟨r, hr⟩
          unfold renderDocument at hr
          rw [hsb] at hr
          cases hr
        · rintro ⟨hs, h2⟩
          rw [hsb] at h2; cases h2
      · intro e2 he2
        unfold renderDocument at he2 ⊢
        rw [hsb] at he2 ⊢
        exact he2
      · intro hs h2
        cases h2
      · intro e2 he2
        injection he2 with h3
        unfold renderDocument
        rw [hsb, h3]
  | ok hs =>
      refine ⟨?_, ?_, ?_, ?_⟩
      · rw [← seqBlocks_ok_iff]
        constructor
        · intro _; exact ⟨hs, hsb⟩
        · intro _
          refine ⟨⟨layoutPages P hs, injectWidgets ws (layoutPages P hs)⟩, ?_⟩
          unfold renderDocument
          rw [hsb]
      · intro e2 he2
        unfold renderDocument at he2
        rw [hsb] at he2
        cases he2
      · intro hs2 h2
        injection h2 with h3
        subst h3
        unfold renderDocument
        rw [hsb]
      · intro e2 he2
        cases he2

/-- Witness for `render_error_policy`: a failing image block aborts the
render with its classified error even though a widget is present. -/
theorem render_error_policy_witness :
    renderDocument 10 [.ok 5, .error .NotAnImage] [⟨"text", "a", 9⟩] =
      .error .NotAnImage :=
  (render_error_policy 10 [.ok 5, .error .NotAnImage]
    [⟨"text", "a", 9⟩] []).2.2.2 .NotAnImage rfl

/-! ## C5 — Base64 round trip: auxiliary lemmas -/

/-- Decoding inverts the alphabet on every sextet value. -/
theorem decodeSextet_fin : ∀ n : Fin 64,
    decodeSextet (sextetChar n.val) = some n.val := by decide

/-- Alphabet characters are not padding, not whitespace, not a data-URL
colon, are fixed by the URL-safe fold, and survive the URL-safe rewrite in
an invertible, non-whitespace, non-colon way. -/
theorem sextetChar_fin_facts : ∀ n : Fin 64,
    sextetChar n.val ≠ '=' ∧ isB64Ws (sextetChar n.val) = false ∧
    mapUrlSafe (sextetChar n.val) = sextetChar n.val ∧
    sextetChar n.val ≠ ':' ∧
    mapUrlSafe (toUrlSafe (sextetChar n.val)) = sextetChar n.val ∧
    isB64Ws (toUrlSafe (sextetChar n.val)) = false ∧
    toUrlSafe (sextetChar n.val) ≠ ':' := by decide

/-- `decodeSextet` on an in-range sextet character. -/
theorem decodeSextet_lt {n : Nat} (h : n < 64) :
    decodeSextet (sextetChar n) = some n := decodeSextet_fin ⟨n, h⟩

/-- An in-range sextet character is never the padding character. -/
theorem sextetChar_ne_pad {n : Nat} (h : n < 64) : sextetChar n ≠ '=' :=
  (sextetChar_fin_facts ⟨n, h⟩).1

/-- Every character of an encoded byte sequence is padding or an in-range
alphabet character. -/
theorem encode_mem (bs : List Nat) (hb : ∀ b ∈ bs, b < 256) :
    ∀ c ∈ encodeB64 bs, c = '=' ∨ ∃ n, n < 64 ∧ c = sextetChar n := by
  induction bs using encodeB64.induct with
  | case1 => simp [encodeB64]
  | case2 b0 =>
      have h0 : b0 < 256 := hb b0 (by simp)
      intro c hc
      simp only [encodeB64, List.mem_cons, List.not_mem_nil, or_false] at hc
      rcases hc with rfl | rfl | rfl | rfl
      · exact .inr ⟨b0 / 4, by omega, rfl⟩
      · exact .inr ⟨b0 % 4 * 16, by omega, rfl⟩
      · exact .inl rfl
      · exact .inl rfl
  | case3 b0 b1 =>
      have h0 : b0 < 256 := hb b0 (by simp)
      have h1 : b1 < 256 := hb b1 (by simp)
      intro c hc
      simp only [encodeB64, List.mem_cons, List.not_mem_nil, or_false] at hc
      rcases hc with rfl | rfl | rfl | rfl
      · exact .inr ⟨b0 / 4, by omega, rfl⟩
      · exact .inr ⟨b0 % 4 * 16 + b1 / 16, by omega, rfl⟩
      · exact .inr ⟨b1 % 16 * 4, by omega, rfl⟩
      · exact .inl rfl
  | case4 b0 b1 b2 rest ih =>
      have h0 : b0 < 256 := hb b0 (by simp)
      have h1 : b1 < 256 := hb b1 (by simp)
      have h2 : b2 < 256 := hb b2 (by simp)
      intro c hc
      simp only [encodeB64, List.mem_cons] at hc
      rcases hc with rfl | rfl | rfl | rfl | hc
      · exact .inr ⟨b0 / 4, by omega, rfl⟩
      · exact .inr ⟨b0 % 4 * 16 + b1 / 16, by omega, rfl⟩
      · exact .inr ⟨b1 % 16 * 4 + b2 / 64, by omega, rfl⟩
      · exact .inr ⟨b2 % 64, by omega, rfl⟩
      · exact ih (fun b hbm => hb b (by simp [hbm])) c hc

/-- The character properties needed by every normalization pass, for each
character an encoder can emit. -/
theorem encode_char_props (bs : List Nat) (hb : ∀ b ∈ bs, b < 256) :
    ∀ c ∈ encodeB64 bs,
      isB64Ws c = false ∧ mapUrlSafe c = c ∧ c ≠ ':' ∧
      mapUrlSafe (toUrlSafe c) = c ∧ isB64Ws (toUrlSafe c) = false ∧
      toUrlSafe c ≠ ':' := by
  intro c hc
  rcases encode_mem bs hb c hc with rfl | ⟨n, hn, rfl⟩
  · exact ⟨rfl, rfl, by decide, rfl, rfl, by decide⟩
  · obtain ⟨-, f1, f2, f3, f4, f5, f6⟩ := sextetChar_fin_facts ⟨n, hn⟩
    exact ⟨f1, f2, f3, f4, f5, f6⟩

/-- Mapping a function that fixes every member of a list is the identity. -/
theorem map_eq_self_of_mem {α : Type} (l : List α) (f : α → α)
    (h : ∀ a ∈ l, f a = a) : l.map f = l := by
  induction l with
  | nil => rfl
  | cons a t ih =>
      simp only [List.map_cons, h a (List.mem_cons_self a t),
        ih (fun b hb => h b (List.mem_cons_of_mem a hb))]

/-- A colon-free text is not mistaken for a data-URL. -/
theorem stripDataUrl_eq_self (cs : List Char) (h : ∀ c ∈ cs, c ≠ ':') :
    stripDataUrl cs = cs := by
  unfold stripDataUrl
  rw [if_neg]
  intro hc
  have hmem : ':' ∈ cs.take 5 := by rw [hc]; decide
  exact h ':' ((List.take_sublist 5 cs).subset hmem) rfl

/-- The encoder always emits whole four-character chunks. -/
theorem encode_length_mod (bs : List Nat) : (encodeB64 bs).length % 4 = 0 := by
  induction bs using encodeB64.induct with
  | case1 => simp [encodeB64]
  | case2 b0 => simp [encodeB64]
  | case3 b0 b1 => simp [encodeB64]
  | case4 b0 b1 b2 rest ih => simp [encodeB64]; omega

/-- Padding correction is the identity on whole-chunk texts. -/
theorem padB64_eq_self (cs : List Char) (h : cs.length % 4 = 0) :
    padB64 cs = cs := by
  unfold padB64
  rw [h]
  simp

/-- Chunkwise decoding inverts the encoder. -/
theorem decodeChunks_encode (bs : List Nat) (hb : ∀ b ∈ bs, b < 256) :
    decodeChunks (encodeB64 bs) = some bs := by
  induction bs using encodeB64.induct with
  | case1 => rfl
  | case2 b0 =>
      have h0 : b0 < 256 := hb b0 (by simp)
      simp only [encodeB64, decodeChunks,
        decodeSextet_lt (show b0 / 4 < 64 by omega),
        decodeSextet_lt (show b0 % 4 * 16 < 64 by omega),
        if_true, and_self, Option.some.injEq, List.cons.injEq, and_true]
      omega
  | case3 b0 b1 =>
      have h0 : b0 < 256 := hb b0 (by simp)
      have h1 : b1 < 256 := hb b1 (by simp)
      simp only [encodeB64, decodeChunks,
        decodeSextet_lt (show b0 / 4 < 64 by omega),
        decodeSextet_lt (show b0 % 4 * 16 + b1 / 16 < 64 by omega),
        decodeSextet_lt (show b1 % 16 * 4 < 64 by omega),
        if_neg (sextetChar_ne_pad (show b1 % 16 * 4 < 64 by omega)),
        if_true, and_self, Option.some.injEq, List.cons.injEq, and_true]
      constructor <;> omega
  | case4 b0 b1 b2 rest ih =>
      have h0 : b0 < 256 := hb b0 (by simp)
      have h1 : b1 < 256 := hb b1 (by simp)
      have h2 : b2 < 256 := hb b2 (by simp)
      have hrec := ih (fun b hbm => hb b (by simp [hbm]))
      simp only [encodeB64, decodeChunks,
        decodeSextet_lt (show b0 / 4 < 64 by omega),
        decodeSextet_lt (show b0 % 4 * 16 + b1 / 16 < 64 by omega),
        decodeSextet_lt (show b1 % 16 * 4 + b2 / 64 < 64 by omega),
        decodeSextet_lt (show b2 % 64 < 64 by omega),
        if_neg (sextetChar_ne_pad (show b1 % 16 * 4 + b2 / 64 < 64 by omega)),
        if_neg (sextetChar_ne_pad (show b2 % 64 < 64 by omega))]
      rw [hrec]
      simp only [Option.some.injEq, List.cons.injEq, and_true, true_and,
        eq_self_iff_true]
      refine ⟨by omega, by omega, by omega⟩

/-- Whitespace characters are never the data-URL colon. -/
theorem isB64Ws_ne_colon {c : Char} (h : isB64Ws c = true) : c ≠ ':' := by
  intro hc
  subst hc
  exact absurd h (by decide)

/-- Dropping through the first comma removes exactly a comma-free prefix. -/
theorem dropThroughComma_append (p r : List Char) (hp : ',' ∉ p) :
    dropThroughComma (p ++ ',' :: r) = r := by
  induction p with
  | nil => simp [dropThroughComma]
  | cons c t ih =>
      have hc : ¬(c = ',') := fun h => hp (h ▸ List.mem_cons_self c t)
      simp only [List.cons_append, dropThroughComma, if_neg hc]
      exact ih (fun h => hp (List.mem_cons_of_mem c h))

/-- Trailing-padding removal keeps only characters of the original text. -/
theorem dropEq_subset (cs : List Char) : ∀ c ∈ dropEq cs, c ∈ cs := by
  intro c hc
  unfold dropEq at hc
  rw [List.mem_reverse] at hc
  exact List.mem_reverse.mp (List.dropWhile_subset _ hc)

/-- Trailing-padding removal passes over a whole leading chunk as long as a
non-padding character occurs later. -/
theorem dropEq_cons4 (c0 c1 c2 c3 : Char) (E : List Char)
    (hE : ∃ c ∈ E, ¬((c == '=') = true)) :
    dropEq (c0 :: c1 :: c2 :: c3 :: E) =
      c0 :: c1 :: c2 :: c3 :: dropEq E := by
  have hrev : (c0 :: c1 :: c2 :: c3 :: E).reverse =
      E.reverse ++ [c3, c2, c1, c0] := by
    simp
  have hne : ¬(E.reverse.dropWhile (fun c => c == '=')).isEmpty = true := by
    rw [List.isEmpty_iff, List.dropWhile_eq_nil_iff]
    intro hall
    obtain ⟨c, hcm, hcp⟩ := hE
    exact hcp (hall c (List.mem_reverse.mpr hcm))
  unfold dropEq
  rw [hrev, List.dropWhile_append, if_neg hne]
  simp

/-- Padding correction commutes with a whole leading chunk. -/
theorem padB64_cons4 (c0 c1 c2 c3 : Char) (Y : List Char) :
    padB64 (c0 :: c1 :: c2 :: c3 :: Y) = c0 :: c1 :: c2 :: c3 :: padB64 Y := by
  unfold padB64
  simp only [List.length_cons, List.cons_append]
  have h4 : (4 - (Y.length + 1 + 1 + 1 + 1) % 4) % 4 =
      (4 - Y.length % 4) % 4 := by omega
  rw [h4]

/-- An encoded non-empty byte list starts with the first byte's high sextet. -/
theorem encode_cons_head (r0 : Nat) (r2 : List Nat) :
    ∃ E2, encodeB64 (r0 :: r2) = sextetChar (r0 / 4) :: E2 := by
  match r2 with
  | [] => exact ⟨_, rfl⟩
  | [r1] => exact ⟨_, rfl⟩
  | r1 :: rb :: rr => exact ⟨_, rfl⟩

/-- Correcting the padding of an encoded text with its padding removed
restores the encoded text. -/
theorem pad_dropEq (bs : List Nat) (hb : ∀ b ∈ bs, b < 256) :
    padB64 (dropEq (encodeB64 bs)) = encodeB64 bs := by
  induction bs using encodeB64.induct with
  | case1 => rfl
  | case2 b0 =>
      have h0 : b0 < 256 := hb b0 (by simp)
      have hc1 : ¬((sextetChar (b0 % 4 * 16) == '=') = true) := by
        simp [sextetChar_ne_pad (show b0 % 4 * 16 < 64 by omega)]
      simp [encodeB64, dropEq, List.dropWhile, hc1, padB64, List.replicate]
  | case3 b0 b1 =>
      have h0 : b0 < 256 := hb b0 (by simp)
      have h1 : b1 < 256 := hb b1 (by simp)
      have hc2 : ¬((sextetChar (b1 % 16 * 4) == '=') = true) := by
        simp [sextetChar_ne_pad (show b1 % 16 * 4 < 64 by omega)]
      simp [encodeB64, dropEq, List.dropWhile, hc2, padB64, List.replicate]
  | case4 b0 b1 b2 rest ih =>
      have h0 : b0 < 256 := hb b0 (by simp)
      have h1 : b1 < 256 := hb b1 (by simp)
      have h2 : b2 < 256 := hb b2 (by simp)
      have hrec := ih (fun b hbm => hb b (by simp [hbm]))
      cases rest with
      | nil =>
          have hc3 : ¬((sextetChar (b2 % 64) == '=') = true) := by
            simp [sextetChar_ne_pad (show b2 % 64 < 64 by omega)]
          simp [encodeB64, dropEq, List.dropWhile, hc3, padB64, List.replicate]
      | cons r0 r2 =>
          obtain ⟨E2, hE2⟩ := encode_cons_head r0 r2
          have hr0 : r0 < 256 := hb r0 (by simp)
          have hwit : ∃ c ∈ encodeB64 (r0 :: r2), ¬((c == '=') = true) := by
            refine ⟨sextetChar (r0 / 4), ?_, ?_⟩
            · rw [hE2]; exact List.mem_cons_self _ _
            · simp [sextetChar_ne_pad (show r0 / 4 < 64 by omega)]
          show padB64 (dropEq (_ :: _ :: _ :: _ :: encodeB64 (r0 :: r2))) = _
          rw [dropEq_cons4 _ _ _ _ _ hwit, padB64_cons4, hrec]
          rfl

/-- Every successful normalization pipeline ending in the canonical encoding
decodes to the original bytes. -/
theorem decodeB64_of_normalized (X : List Char) (bs : List Nat)
    (hb : ∀ b ∈ bs, b < 256)
    (hst : stripDataUrl X = X)
    (hrest : padB64 ((X.filter (fun c => !isB64Ws c)).map mapUrlSafe) =
      encodeB64 bs) :
    decodeB64 X = .ok bs := by
  simp only [decodeB64, hst, hrest, decodeChunks_encode bs hb]

/-- C5 (confirmed, spec-modelled): Base64-encoding any byte sequence and
feeding it to the tolerant decoder returns byte-identical content — raw,
wrapped in a data-URL, with whitespace inserted anywhere, with the padding
removed, or rewritten in the URL-safe alphabet — and any decoding failure
reports `InvalidEncoding`. -/
theorem base64_roundtrip (bs : List Nat) (hb : ∀ b ∈ bs, b < 256)
    (p t s : List Char) (e : RenderError)
    (hp5 : p.take 5 = ("data:").toList) (hpc : ',' ∉ p)
    (ht : t.filter (fun c => !isB64Ws c) = encodeB64 bs)
    (hs : decodeB64 s = .error e) :
    decodeB64 (encodeB64 bs) = .ok bs ∧
    decodeB64 (p ++ ',' :: encodeB64 bs) = .ok bs ∧
    decodeB64 t = .ok bs ∧
    decodeB64 (dropEq (encodeB64 bs)) = .ok bs ∧
    decodeB64 ((encodeB64 bs).map toUrlSafe) = .ok bs ∧
    e = .InvalidEncoding := by
  have EP := encode_char_props bs hb
  have hfilter : (encodeB64 bs).filter (fun c => !isB64Ws c) = encodeB64 bs :=
    List.filter_eq_self.mpr (fun c hc => by simp [(EP c hc).1])
  have hmap : (encodeB64 bs).map mapUrlSafe = encodeB64 bs :=
    map_eq_self_of_mem _ _ (fun c hc => (EP c hc).2.1)
  have hpad : padB64 (encodeB64 bs) = encodeB64 bs :=
    padB64_eq_self _ (encode_length_mod bs)
  have hcanon : padB64 (((encodeB64 bs).filter
      (fun c => !isB64Ws c)).map mapUrlSafe) = encodeB64 bs := by
    rw [hfilter, hmap, hpad]
  refine ⟨?_, ?_, ?_, ?_, ?_, ?_⟩
  · exact decodeB64_of_normalized _ bs hb
      (stripDataUrl_eq_self _ (fun c hc => (EP c hc).2.2.1)) hcanon
  · have hplen : 5 ≤ p.length := by
      have h5 := congrArg List.length hp5
      simp only [List.length_take] at h5
      have hd5 : (("data:").toList).length = 5 := by decide
      rw [hd5] at h5
      omega
    have hsplit : stripDataUrl (p ++ ',' :: encodeB64 bs) = encodeB64 bs := by
      unfold stripDataUrl
      rw [if_pos, dropThroughComma_append p _ hpc]
      rw [List.take_append_of_le_length hplen, hp5]
    simp only [decodeB64, hsplit, hcanon, decodeChunks_encode bs hb]
  · have htcolon : ∀ c ∈ t, c ≠ ':' := by
      intro c hc
      by_cases hw : isB64Ws c = true
      · exact isB64Ws_ne_colon hw
      · have hcf : c ∈ t.filter (fun c => !isB64Ws c) := by
          rw [List.mem_filter]
          exact ⟨hc, by simp [hw]⟩
        rw [ht] at hcf
        exact (EP c hcf).2.2.1
    exact decodeB64_of_normalized t bs hb (stripDataUrl_eq_self t htcolon)
      (by rw [ht, hmap, hpad])
  · have hsub := dropEq_subset (encodeB64 bs)
    refine decodeB64_of_normalized _ bs hb
      (stripDataUrl_eq_self _ (fun c hc => (EP c (hsub c hc)).2.2.1)) ?_
    have hf2 : (dropEq (encodeB64 bs)).filter (fun c => !isB64Ws c) =
        dropEq (encodeB64 bs) :=
      List.filter_eq_self.mpr (fun c hc => by simp [(EP c (hsub c hc)).1])
    have hm2 : (dropEq (encodeB64 bs)).map mapUrlSafe =
        dropEq (encodeB64 bs) :=
      map_eq_self_of_mem _ _ (fun c hc => (EP c (hsub c hc)).2.1)
    rw [hf2, hm2, pad_dropEq bs hb]
  · refine decodeB64_of_normalized _ bs hb (stripDataUrl_eq_self _ ?_) ?_
    · intro d hd
      rw [List.mem_map] at hd
      obtain ⟨c, hc, rfl⟩ := hd
      exact (EP c hc).2.2.2.2.2
    · have hf3 : ((encodeB64 bs).map toUrlSafe).filter
          (fun c => !isB64Ws c) = (encodeB64 bs).map toUrlSafe :=
        List.filter_eq_self.mpr (by
          intro d hd
          rw [List.mem_map] at hd
          obtain ⟨c, hc, rfl⟩ := hd
          simp [(EP c hc).2.2.2.2.1])
      rw [hf3, List.map_map]
      have hm3 : (encodeB64 bs).map (mapUrlSafe ∘ toUrlSafe) =
          encodeB64 bs :=
        map_eq_self_of_mem _ _ (fun c hc => (EP c hc).2.2.2.1)
      rw [hm3, hpad]
  · revert hs
    simp only [decodeB64]
    cases decodeChunks (padB64 (((stripDataUrl s).filter
        (fun c => !isB64Ws c)).map mapUrlSafe)) with
    | some bs2 => intro h; cases h
    | none => intro h; injection h with h2; exact h2.symm

/-- Witness for `base64_roundtrip`: the bytes of "Man", decoded raw, as a
data-URL and with interspersed whitespace. -/
theorem base64_roundtrip_witness :
    decodeB64 (encodeB64 [77, 97, 110]) = .ok [77, 97, 110] ∧
    decodeB64 (("data:image/png;base64").toList ++
      ',' :: encodeB64 [77, 97, 110]) = .ok [77, 97, 110] ∧
    decodeB64 ((" TW\nFu").toList) = .ok [77, 97, 110] := by
  have h := base64_roundtrip [77, 97, 110] (by decide)
    (("data:image/png;base64").toList) ((" TW\nFu").toList) (("!").toList)
    .InvalidEncoding (by decide) (by decide) (by decide) rfl
  exact ⟨h.1, h.2.1, h.2.2.1⟩

end FileProcessor
